import Mathlib

/-!
Verification of the semver `Version` library.

The Python class `Version` (file `semver.py`) is shallowly embedded here:
Python strings become `List Char`, Python `int` becomes `Int` (arbitrary
precision, possibly negative before validation), `str | None` fields become
`Option (List Char)`, and raising `VersionError` becomes returning
`Except VersionError Version`.

The anchored regular expressions of the source are embedded as executable
recognizers.  Each identifier-level pattern is translated alternation by
alternation; the full `_VERSION_PATTERN` is embedded as a deterministic
scanner, which is equivalent to the regex because the regex is
unambiguous: the numeric core groups `0|[1-9]\d*` are followed by a
non-digit (`.`), so they must consume the maximal digit run; the
pre-release group draws on `[0-9a-zA-Z-.]` which excludes `+`, so it must
extend to the first `+` (or the end); the build group likewise excludes
`+`, so no second `+` can be consumed.

The `\d` class is embedded in two readings.  The default recognizers read
`\d` as the spec grammar's `digit ::= 0-9`; on ASCII strings — every
string drawn from the grammar's own alphabet — this agrees exactly with
the program.  The program itself compiles `str` patterns without
`re.ASCII`, where `\d` matches every Unicode decimal digit; that wider
implemented behavior is embedded separately (`isPyDigit`, `pyValidOK`,
`pyMk?`) and diverges from the grammar only on non-ASCII input, which
claim C5 records as a code bug.
-/

namespace Semver

/-- Characters allowed in pre-release and build identifiers: `[0-9a-zA-Z-]`. -/
def isIdentChar (c : Char) : Bool := c.isDigit || c.isAlpha || c = '-'

/-- Prepends a character to the first segment of a split. -/
def consHead (c : Char) : List (List Char) → List (List Char)
  | [] => [[c]]
  | s :: ss => (c :: s) :: ss

/-- Python `s.split(".")`: the (possibly empty) segments between the dots.
`splitDot [] = [[]]`, matching `"".split(".") == [""]`. -/
def splitDot : List Char → List (List Char)
  | [] => [[]]
  | c :: rest =>
    if c = '.' then [] :: splitDot rest else consHead c (splitDot rest)

/-- Numeric group `0|[1-9]\d*`: a digit run with no leading zero, with
`\d` read as the spec grammar's `digit ::= 0-9` (on ASCII strings this
agrees with the program; the program's Unicode `\d` is `pyCoreDigitsOK`).
The two regex alternatives are disjoint on the first character, so the
recognizer branches on it. -/
def coreDigitsOK (s : List Char) : Bool :=
  match s with
  | [] => false
  | c :: rest =>
    if c = '0' then rest.isEmpty
    else ('1' ≤ c && c ≤ '9') && rest.all Char.isDigit

/-- Alphanumeric identifier `\d*[a-zA-Z-][0-9a-zA-Z-]*`, with `\d` read
as the spec grammar's `0-9` (the program's Unicode `\d` is
`pyAlnumIdent`): the leading `\d*` must be the maximal digit run because
`[a-zA-Z-]` matches no digit. -/
def isAlnumIdent : List Char → Bool
  | [] => false
  | c :: rest =>
    if c.isAlpha || c = '-' then rest.all isIdentChar
    else if c.isDigit then isAlnumIdent rest
    else false

/-- Pre-release identifier `0|[1-9]\d*|\d*[a-zA-Z-][0-9a-zA-Z-]*`. -/
def preIdentOK (s : List Char) : Bool := coreDigitsOK s || isAlnumIdent s

/-- Build identifier `[0-9a-zA-Z-]+`. -/
def buildIdentOK (s : List Char) : Bool := !s.isEmpty && s.all isIdentChar

/-- Embeds `_VERSION_PRE_RELEASE_PATTERN.fullmatch`: identifiers cannot
contain `.`, so a full match is exactly a dot-split into valid identifiers
(empty segments fail `preIdentOK`). -/
def preReleaseOK (s : List Char) : Bool := (splitDot s).all preIdentOK

/-- Embeds `_VERSION_BUILD_PATTERN.fullmatch`. -/
def buildOK (s : List Char) : Bool := (splitDot s).all buildIdentOK

/-- Embeds `VersionError`: either the tuple payload raised by
`_validate_version` or the raw string payload raised by `from_string`. -/
inductive VersionError where
  | illegalVersion (t : Int × Int × Int × Option (List Char) × Option (List Char))
  | illegalVersionString (s : List Char)
  deriving DecidableEq

instance {ε α : Type} [DecidableEq ε] [DecidableEq α] : DecidableEq (Except ε α) :=
  fun x y =>
    match x, y with
    | .ok a, .ok b =>
      if h : a = b then .isTrue (by rw [h]) else .isFalse (by simp [h])
    | .error a, .error b =>
      if h : a = b then .isTrue (by rw [h]) else .isFalse (by simp [h])
    | .ok _, .error _ => .isFalse (by simp)
    | .error _, .ok _ => .isFalse (by simp)

/-- Embeds the `Version` value: five fields, as stored by `__init__`. -/
structure Version where
  major : Int
  minor : Int
  patch : Int
  pre_release : Option (List Char)
  build : Option (List Char)
  deriving DecidableEq

/-- Embeds the condition checked by `Version._validate_version`. -/
def validOK (major minor patch : Int)
    (pre_release build : Option (List Char)) : Bool :=
  decide (0 ≤ major) && decide (0 ≤ minor) && decide (0 ≤ patch) &&
  (match pre_release with | none => true | some p => preReleaseOK p) &&
  (match build with | none => true | some b => buildOK b)

/-- Embeds `Version.__init__`: validate, then build the value; `Except`
models the `VersionError` raise with the offending tuple. -/
def Version.mk? (major minor patch : Int)
    (pre_release build : Option (List Char)) : Except VersionError Version :=
  if validOK major minor patch pre_release build then
    .ok ⟨major, minor, patch, pre_release, build⟩
  else
    .error (.illegalVersion (major, minor, patch, pre_release, build))

/-- A `Version` value that `_validate_version` accepts; every observable
`Version` satisfies this. -/
def Version.Valid (v : Version) : Prop :=
  validOK v.major v.minor v.patch v.pre_release v.build = true

instance (v : Version) : Decidable v.Valid := by
  unfold Version.Valid; infer_instance

/-- Embeds Python `int(...)` applied to a digit string. -/
def natOfDigits (s : List Char) : Nat :=
  s.foldl (fun a c => a * 10 + (c.toNat - '0'.toNat)) 0

/-- Helper for decimal rendering: most significant digit first, pushed onto
an accumulator.  The first argument is fuel, kept at least the value being
rendered so the recursion is structural (and hence kernel-reducible). -/
def natToDigitsAux : Nat → Nat → List Char → List Char
  | _, 0, acc => acc
  | 0, _, acc => acc
  | fuel + 1, n, acc =>
    natToDigitsAux fuel (n / 10) (Char.ofNat ('0'.toNat + n % 10) :: acc)

/-- Embeds Python `"{:d}".format(n)` for `n ≥ 0`. -/
def natToDigits (n : Nat) : List Char :=
  if n = 0 then ['0'] else natToDigitsAux n n []

/-- Embeds Python `"{:d}".format(i)` for arbitrary `i` (a sign, then the
digits); validated versions only ever hit the nonnegative branch. -/
def intToDigits (i : Int) : List Char :=
  if i < 0 then '-' :: natToDigits i.natAbs else natToDigits i.toNat

/-- Embeds `Version.__str__`. -/
def Version.toString (v : Version) : List Char :=
  intToDigits v.major ++ '.' :: intToDigits v.minor ++ '.' :: intToDigits v.patch
    ++ (match v.pre_release with | none => [] | some p => '-' :: p)
    ++ (match v.build with | none => [] | some b => '+' :: b)

/-- The rendered pre-release segment: `""` or `"-" + pre`. -/
def preSeg : Option (List Char) → List Char
  | none => []
  | some p => '-' :: p

/-- The rendered build segment: `""` or `"+" + build`. -/
def buildSeg : Option (List Char) → List Char
  | none => []
  | some x => '+' :: x

/-- Embeds the optional `(?:-pre)?(?:\+build)?$` tail of `_VERSION_PATTERN`.
The pre-release group cannot contain `+`, so it spans to the first `+` or
to the end of the input; the build group is everything after that `+`. -/
def parseTail (s : List Char) :
    Option (Option (List Char) × Option (List Char)) :=
  match s with
  | [] => some (none, none)
  | c :: rest =>
    if c = '+' then
      if buildOK rest then some (none, some rest) else none
    else if c = '-' then
      let p := rest.takeWhile (fun ch => ch != '+')
      let r := rest.dropWhile (fun ch => ch != '+')
      if preReleaseOK p then
        match r with
        | [] => some (some p, none)
        | _ :: b => if buildOK b then some (some p, some b) else none
      else none
    else none

/-- Embeds one numeric core group of `_VERSION_PATTERN`: the maximal digit
run, which must have no leading zero; returns it with the rest of the
input. -/
def parseCore (s : List Char) : Option (List Char × List Char) :=
  let d := s.takeWhile Char.isDigit
  let r := s.dropWhile Char.isDigit
  if coreDigitsOK d then some (d, r) else none

/-- Consumes the literal `.` separating two core groups. -/
def expectDot : List Char → Option (List Char)
  | [] => none
  | c :: rest => if c = '.' then some rest else none

/-- Embeds `_VERSION_PATTERN.fullmatch` with its capture groups:
`major "." minor "." patch tail`, anchored at both ends. -/
def parseVersionString (s : List Char) :
    Option (List Char × List Char × List Char ×
      Option (List Char) × Option (List Char)) :=
  (parseCore s).bind fun (ma, r1) =>
  (expectDot r1).bind fun r2 =>
  (parseCore r2).bind fun (mi, r3) =>
  (expectDot r3).bind fun r4 =>
  (parseCore r4).bind fun (pa, r5) =>
  (parseTail r5).bind fun (pre, b) =>
  some (ma, mi, pa, pre, b)

/-- Embeds `Version.from_string`: full regex match, `int(...)` on the core
groups, then the constructor (which re-validates). -/
def from_string (s : List Char) : Except VersionError Version :=
  match parseVersionString s with
  | none => .error (.illegalVersionString s)
  | some (ma, mi, pa, pre, b) =>
    Version.mk? (natOfDigits ma) (natOfDigits mi) (natOfDigits pa) pre b

/-- Embeds Python `<` on strings: lexicographic by code point, a proper
prefix being smaller. -/
def pyStrLt : List Char → List Char → Bool
  | [], [] => false
  | [], _ :: _ => true
  | _ :: _, [] => false
  | a :: as, b :: bs =>
    if a < b then true
    else if b < a then false
    else pyStrLt as bs

/-- Embeds `is_number_string`, i.e. `re.fullmatch("\d+", value)`, with
`\d` read as ASCII digits: the values compared are dot-segments of
grammar-valid pre-releases (or the `""` fill), on which this agrees with
the program's Unicode `\d`. -/
def isNumberString (s : List Char) : Bool := !s.isEmpty && s.all Char.isDigit

/-- Three-way comparison on naturals, as the loop body realises it. -/
def cmpNat (a b : Nat) : Int := if a < b then -1 else if b < a then 1 else 0

/-- Embeds one iteration of the loop in `_compare_version_pre_release`:
numeric comparison when both identifiers are pure digits, Python string
comparison otherwise. -/
def cmpIdent (a b : List Char) : Int :=
  if isNumberString a && isNumberString b then
    cmpNat (natOfDigits a) (natOfDigits b)
  else if pyStrLt a b then -1
  else if pyStrLt b a then 1
  else 0

/-- Tail of the `zip_longest` loop after the left sequence is exhausted:
every remaining pair compares `""` against the right identifier. -/
def cmpIdentsNil : List (List Char) → Int
  | [] => 0
  | b :: bs =>
    let c := cmpIdent [] b
    if c = 0 then cmpIdentsNil bs else c

/-- Embeds the `itertools.zip_longest(values1, values2, fillvalue="")` loop
proper: once the left sequence is exhausted, the remaining pairs all have
`""` on the left (`cmpIdentsNil`). -/
def cmpIdents : List (List Char) → List (List Char) → Int
  | [], l2 => cmpIdentsNil l2
  | a :: as, [] =>
    let c := cmpIdent a []
    if c = 0 then cmpIdents as [] else c
  | a :: as, b :: bs =>
    let c := cmpIdent a b
    if c = 0 then cmpIdents as bs else c

/-- Embeds `Version._compare_version_pre_release`. -/
def cmpPreRelease (p1 p2 : Option (List Char)) : Int :=
  if p1 = p2 then 0
  else
    match p1, p2 with
    | none, _ => 1
    | _, none => -1
    | some s1, some s2 => cmpIdents (splitDot s1) (splitDot s2)

/-- Embeds Python tuple `<` on the `(major, minor, patch)` cores. -/
def coreLt (v1 v2 : Version) : Bool :=
  decide (v1.major < v2.major) ||
    (decide (v1.major = v2.major) && (decide (v1.minor < v2.minor) ||
      (decide (v1.minor = v2.minor) && decide (v1.patch < v2.patch))))

/-- Embeds `Version._compare_version`. -/
def compareVersion (v1 v2 : Version) : Int :=
  if coreLt v1 v2 then -1
  else if coreLt v2 v1 then 1
  else cmpPreRelease v1.pre_release v2.pre_release

/-- Embeds `Version.__lt__`. -/
def vlt (v1 v2 : Version) : Bool := decide (compareVersion v1 v2 < 0)

/-- Embeds `Version.__gt__`. -/
def vgt (v1 v2 : Version) : Bool := decide (0 < compareVersion v1 v2)

/-- Embeds `Version.__eq__`: tuple equality on all five fields. -/
def veq (v1 v2 : Version) : Bool := decide (v1 = v2)

/-- Embeds `Version.bump_major`. -/
def Version.bump_major (v : Version)
    (keep_pre_release keep_build : Bool) : Except VersionError Version :=
  Version.mk? (v.major + 1) 0 0
    (if keep_pre_release then v.pre_release else none)
    (if keep_build then v.build else none)

/-- Embeds `Version.bump_minor`. -/
def Version.bump_minor (v : Version)
    (keep_pre_release keep_build : Bool) : Except VersionError Version :=
  Version.mk? v.major (v.minor + 1) 0
    (if keep_pre_release then v.pre_release else none)
    (if keep_build then v.build else none)

/-- Embeds `Version.bump_patch`. -/
def Version.bump_patch (v : Version)
    (keep_pre_release keep_build : Bool) : Except VersionError Version :=
  Version.mk? v.major v.minor (v.patch + 1)
    (if keep_pre_release then v.pre_release else none)
    (if keep_build then v.build else none)

/-- Embeds `Version.bump_pre_release`. -/
def Version.bump_pre_release (v : Version)
    (pre : Option (List Char)) : Except VersionError Version :=
  Version.mk? v.major v.minor v.patch pre v.build

/-- Embeds `Version.bump_build`. -/
def Version.bump_build (v : Version)
    (b : Option (List Char)) : Except VersionError Version :=
  Version.mk? v.major v.minor v.patch v.pre_release b

/-- First nonzero entry of a list of comparison results, `0` if none. -/
def firstNonZero : List Int → Int
  | [] => 0
  | c :: rest => if c = 0 then firstNonZero rest else c

/-- Pads an identifier sequence to length `n` with empty identifiers. -/
def padTo (xs : List (List Char)) (n : Nat) : List (List Char) :=
  xs ++ List.replicate (n - xs.length) []

/-- Modelled from the spec: walk the two identifier sequences pairwise up to
the longer sequence's length, a missing trailing identifier reading as the
empty string; the first nonzero identifier-pair result wins, and the
sequences are equal if every pair ties. -/
def specCmpSeq (xs ys : List (List Char)) : Int :=
  let n := max xs.length ys.length
  firstNonZero (List.zipWith cmpIdent (padTo xs n) (padTo ys n))

/-! ### The implemented reading of `\d`.

The recognizers above read `\d` as the spec's `digit ::= 0-9`.  The source
compiles its patterns as `str` patterns without `re.ASCII`, where `\d`
matches every Unicode decimal digit (category Nd), so the running
validator is wider than the spec grammar on non-ASCII input; the
definitions below embed that implemented behavior, and claim C5 records
the divergence.  Only `\d` differs: `[1-9]`, `[a-zA-Z-]` and
`[0-9a-zA-Z-]` are explicit ASCII ranges in the patterns, and the build
pattern contains no `\d` at all. -/

/-- Codepoint ranges of the Unicode decimal digits (category Nd), from
Unicode 14.0.0 as shipped with CPython 3.11; this is the character class
Python's `re` gives `\d` in a `str` pattern without `re.ASCII`. -/
def ndRanges : List (Nat × Nat) := [(48, 57), (1632, 1641), (1776, 1785),
  (1984, 1993), (2406, 2415), (2534, 2543), (2662, 2671), (2790, 2799),
  (2918, 2927), (3046, 3055), (3174, 3183), (3302, 3311), (3430, 3439),
  (3558, 3567), (3664, 3673), (3792, 3801), (3872, 3881), (4160, 4169),
  (4240, 4249), (6112, 6121), (6160, 6169), (6470, 6479), (6608, 6617),
  (6784, 6793), (6800, 6809), (6992, 7001), (7088, 7097), (7232, 7241),
  (7248, 7257), (42528, 42537), (43216, 43225), (43264, 43273),
  (43472, 43481), (43504, 43513), (43600, 43609), (44016, 44025),
  (65296, 65305), (66720, 66729), (68912, 68921), (69734, 69743),
  (69872, 69881), (69942, 69951), (70096, 70105), (70384, 70393),
  (70736, 70745), (70864, 70873), (71248, 71257), (71360, 71369),
  (71472, 71481), (71904, 71913), (72016, 72025), (72784, 72793),
  (73040, 73049), (73120, 73129), (92768, 92777), (92864, 92873),
  (93008, 93017), (120782, 120831), (123200, 123209), (123632, 123641),
  (125264, 125273), (130032, 130041)]

/-- Embeds Python's `\d` as the program runs it: membership in the Unicode
Nd ranges. -/
def isPyDigit (c : Char) : Bool :=
  ndRanges.any fun r => r.1 ≤ c.toNat && c.toNat ≤ r.2

/-- Embeds the numeric group `0|[1-9]\d*` as the program runs it: `[1-9]`
is the ASCII range, but the following `\d*` accepts any Unicode decimal
digit. -/
def pyCoreDigitsOK (s : List Char) : Bool :=
  match s with
  | [] => false
  | c :: rest =>
    if c = '0' then rest.isEmpty
    else ('1' ≤ c && c ≤ '9') && rest.all isPyDigit

/-- Embeds `\d*[a-zA-Z-][0-9a-zA-Z-]*` as the program runs it: the leading
`\d*` accepts Unicode decimal digits (and is still forced maximal, since
`[a-zA-Z-]` matches no Nd character); the trailing classes are ASCII. -/
def pyAlnumIdent : List Char → Bool
  | [] => false
  | c :: rest =>
    if c.isAlpha || c = '-' then rest.all isIdentChar
    else if isPyDigit c then pyAlnumIdent rest
    else false

/-- Pre-release identifier under the implemented (Unicode `\d`) reading. -/
def pyPreIdentOK (s : List Char) : Bool := pyCoreDigitsOK s || pyAlnumIdent s

/-- Embeds `_VERSION_PRE_RELEASE_PATTERN.fullmatch` as the program runs it
(`.` is not an Nd character, so the dot-split argument is unchanged). -/
def pyPreReleaseOK (s : List Char) : Bool := (splitDot s).all pyPreIdentOK

/-- Embeds the condition checked by `_validate_version` as the program runs
it; the build pattern has no `\d`, so `buildOK` is shared. -/
def pyValidOK (major minor patch : Int)
    (pre_release build : Option (List Char)) : Bool :=
  decide (0 ≤ major) && decide (0 ≤ minor) && decide (0 ≤ patch) &&
  (match pre_release with | none => true | some p => pyPreReleaseOK p) &&
  (match build with | none => true | some b => buildOK b)

/-- Embeds `Version.__init__` as the program runs it. -/
def pyMk? (major minor patch : Int)
    (pre_release build : Option (List Char)) : Except VersionError Version :=
  if pyValidOK major minor patch pre_release build then
    .ok ⟨major, minor, patch, pre_release, build⟩
  else
    .error (.illegalVersion (major, minor, patch, pre_release, build))

/-! ### Comparison algebra: antisymmetry and reflexivity of the three-way
comparison functions. -/

theorem cmpNat_antisymm (a b : Nat) : cmpNat a b = -cmpNat b a := by
  unfold cmpNat
  rcases Nat.lt_trichotomy a b with h | h | h
  · simp [h, Nat.lt_asymm h]
  · simp [h, Nat.lt_irrefl]
  · simp [h, Nat.lt_asymm h]

theorem cmpNat_self (a : Nat) : cmpNat a a = 0 := by
  simp [cmpNat]

theorem pyStrLt_irrefl : ∀ a : List Char, pyStrLt a a = false
  | [] => rfl
  | a :: as => by simp [pyStrLt, lt_irrefl, pyStrLt_irrefl as]

theorem pyStrLt_asymm : ∀ a b : List Char, pyStrLt a b = true → pyStrLt b a = false
  | [], [] => by simp [pyStrLt]
  | [], _ :: _ => fun _ => rfl
  | _ :: _, [] => by simp [pyStrLt]
  | a :: as, b :: bs => by
    intro h
    by_cases hab : a < b
    · simp [pyStrLt, hab, lt_asymm hab]
    · by_cases hba : b < a
      · simp [pyStrLt, hab, hba] at h
      · simp only [pyStrLt, if_neg hab, if_neg hba] at h
        simp only [pyStrLt, if_neg hab, if_neg hba]
        exact pyStrLt_asymm as bs h

theorem cmpIdent_self (a : List Char) : cmpIdent a a = 0 := by
  unfold cmpIdent
  by_cases h : (isNumberString a && isNumberString a) = true
  · rw [if_pos h]; exact cmpNat_self _
  · rw [if_neg h]
    simp [pyStrLt_irrefl]

theorem cmpIdent_antisymm (a b : List Char) : cmpIdent a b = -cmpIdent b a := by
  unfold cmpIdent
  rw [Bool.and_comm (isNumberString b) (isNumberString a)]
  by_cases hn : (isNumberString a && isNumberString b) = true
  · rw [if_pos hn, if_pos hn]; exact cmpNat_antisymm _ _
  · rw [if_neg hn, if_neg hn]
    by_cases h1 : pyStrLt a b = true
    · have hba : ¬ pyStrLt b a = true := by simp [pyStrLt_asymm a b h1]
      rw [if_pos h1, if_neg hba, if_pos h1]
    · by_cases h2 : pyStrLt b a = true
      · rw [if_neg h1, if_pos h2, if_pos h2]
        decide
      · rw [if_neg h1, if_neg h2, if_neg h2, if_neg h1]
        decide

theorem cmpIdents_nil_antisymm :
    ∀ bs : List (List Char), cmpIdents bs [] = -cmpIdentsNil bs
  | [] => rfl
  | b :: bs => by
    simp only [cmpIdents, cmpIdentsNil]
    rw [cmpIdent_antisymm b [], cmpIdents_nil_antisymm bs]
    by_cases h : cmpIdent [] b = 0
    · simp [h]
    · simp [h, neg_eq_zero]

theorem cmpIdents_antisymm : ∀ xs ys : List (List Char), cmpIdents xs ys = -cmpIdents ys xs
  | [], ys => by
    cases ys with
    | nil => rfl
    | cons b bs =>
      show cmpIdentsNil (b :: bs) = -cmpIdents (b :: bs) []
      rw [cmpIdents_nil_antisymm, neg_neg]
  | a :: as, [] => by
    rw [cmpIdents_nil_antisymm (a :: as)]
    rfl
  | a :: as, b :: bs => by
    simp only [cmpIdents]
    rw [cmpIdent_antisymm a b, cmpIdents_antisymm as bs]
    by_cases h : cmpIdent b a = 0
    · simp [h]
    · simp [h, neg_eq_zero]

theorem cmpIdents_self : ∀ xs : List (List Char), cmpIdents xs xs = 0
  | [] => rfl
  | a :: as => by simp [cmpIdents, cmpIdent_self, cmpIdents_self as]

theorem cmpPreRelease_self (p : Option (List Char)) : cmpPreRelease p p = 0 := by
  simp [cmpPreRelease]

theorem cmpPreRelease_antisymm (p q : Option (List Char)) :
    cmpPreRelease p q = -cmpPreRelease q p := by
  unfold cmpPreRelease
  by_cases h : p = q
  · simp [h]
  · have h' : ¬ q = p := fun hh => h hh.symm
    simp only [if_neg h, if_neg h']
    match p, q with
    | none, none => exact absurd rfl h
    | none, some s =>
      show (1 : Int) = -(-1)
      decide
    | some s, none =>
      show (-1 : Int) = -1
      rfl
    | some s1, some s2 =>
      show cmpIdents (splitDot s1) (splitDot s2) = -cmpIdents (splitDot s2) (splitDot s1)
      exact cmpIdents_antisymm _ _

/-- Unfolds the embedded tuple comparison into integer arithmetic. -/
theorem coreLt_iff (v1 v2 : Version) : coreLt v1 v2 = true ↔
    (v1.major < v2.major ∨ (v1.major = v2.major ∧
      (v1.minor < v2.minor ∨ (v1.minor = v2.minor ∧ v1.patch < v2.patch)))) := by
  unfold coreLt
  simp

theorem coreLt_asymm {v1 v2 : Version} (h : coreLt v1 v2 = true) :
    coreLt v2 v1 = false := by
  rw [coreLt_iff] at h
  rw [Bool.eq_false_iff]
  intro h'
  rw [coreLt_iff] at h'
  omega

theorem coreLt_self (v : Version) : coreLt v v = false := by
  rw [Bool.eq_false_iff]
  intro h
  rw [coreLt_iff] at h
  omega

theorem compareVersion_self (v : Version) : compareVersion v v = 0 := by
  unfold compareVersion
  simp [coreLt_self, cmpPreRelease_self]

/-! ### Decimal rendering: the digits produced by `natToDigits` parse back
to the same number, are all digits, and have no leading zero. -/

theorem digitChar_isDigit {d : Nat} (h : d < 10) :
    (Char.ofNat ('0'.toNat + d)).isDigit = true := by
  interval_cases d <;> decide

theorem digitChar_toNat {d : Nat} (h : d < 10) :
    (Char.ofNat ('0'.toNat + d)).toNat = '0'.toNat + d := by
  interval_cases d <;> decide

theorem digitChar_pos {d : Nat} (h1 : 1 ≤ d) (h2 : d < 10) :
    '1' ≤ Char.ofNat ('0'.toNat + d) ∧ Char.ofNat ('0'.toNat + d) ≤ '9' := by
  interval_cases d <;> exact ⟨by decide, by decide⟩

theorem natToDigitsAux_zero (fuel : Nat) (acc : List Char) :
    natToDigitsAux fuel 0 acc = acc := by
  cases fuel <;> rfl

theorem natToDigitsAux_fuel_zero (n : Nat) (acc : List Char) :
    natToDigitsAux 0 n acc = acc := by
  cases n <;> rfl

/-- Number of decimal digits, used only to track the fold through the
accumulator in the round-trip proof. -/
def numDigits (n : Nat) : Nat :=
  if h : n = 0 then 0 else numDigits (n / 10) + 1
decreasing_by exact Nat.div_lt_self (Nat.pos_of_ne_zero h) (by decide)

theorem numDigits_zero : numDigits 0 = 0 := by
  unfold numDigits
  rfl

theorem numDigits_pos {n : Nat} (h : n ≠ 0) :
    numDigits n = numDigits (n / 10) + 1 := by
  conv_lhs => rw [numDigits]
  simp [h]

theorem foldl_natToDigitsAux :
    ∀ (fuel n : Nat), n ≤ fuel → ∀ (a : Nat) (acc : List Char),
    List.foldl (fun a c => a * 10 + (c.toNat - '0'.toNat)) a (natToDigitsAux fuel n acc) =
      List.foldl (fun a c => a * 10 + (c.toNat - '0'.toNat))
        (a * 10 ^ numDigits n + n) acc := by
  intro fuel
  induction fuel with
  | zero =>
    intro n hn a acc
    interval_cases n
    simp [natToDigitsAux_zero, numDigits_zero]
  | succ fuel ih =>
    intro n hn a acc
    cases n with
    | zero => simp [natToDigitsAux_zero, numDigits_zero]
    | succ m =>
      have hrec : (m + 1) / 10 ≤ fuel := by
        have := Nat.div_lt_self (Nat.succ_pos m) (by decide : 1 < 10)
        omega
      show List.foldl _ a
          (natToDigitsAux fuel ((m + 1) / 10)
            (Char.ofNat ('0'.toNat + (m + 1) % 10) :: acc)) = _
      rw [ih _ hrec, List.foldl_cons]
      have hc : (Char.ofNat ('0'.toNat + (m + 1) % 10)).toNat = '0'.toNat + (m + 1) % 10 :=
        digitChar_toNat (Nat.mod_lt _ (by decide))
      congr 1
      rw [hc, numDigits_pos (Nat.succ_ne_zero m)]
      have hdm : 10 * ((m + 1) / 10) + (m + 1) % 10 = m + 1 := Nat.div_add_mod _ _
      calc (a * 10 ^ numDigits ((m + 1) / 10) + (m + 1) / 10) * 10 +
            ('0'.toNat + (m + 1) % 10 - '0'.toNat)
          = a * (10 ^ numDigits ((m + 1) / 10) * 10) +
            (10 * ((m + 1) / 10) + (m + 1) % 10) := by ring_nf; omega
        _ = a * 10 ^ (numDigits ((m + 1) / 10) + 1) + (m + 1) := by
            rw [pow_succ, hdm]

theorem natOfDigits_natToDigits (n : Nat) : natOfDigits (natToDigits n) = n := by
  by_cases h : n = 0
  · subst h; decide
  · unfold natToDigits natOfDigits
    rw [if_neg h, foldl_natToDigitsAux n n (le_refl n) 0 []]
    simp

theorem natToDigitsAux_all_digits :
    ∀ (fuel n : Nat) (acc : List Char), acc.all Char.isDigit = true →
    (natToDigitsAux fuel n acc).all Char.isDigit = true := by
  intro fuel
  induction fuel with
  | zero =>
    intro n acc h
    rw [natToDigitsAux_fuel_zero]
    exact h
  | succ fuel ih =>
    intro n acc h
    cases n with
    | zero =>
      rw [natToDigitsAux_zero]
      exact h
    | succ m =>
      show (natToDigitsAux fuel ((m + 1) / 10)
        (Char.ofNat ('0'.toNat + (m + 1) % 10) :: acc)).all Char.isDigit = true
      apply ih
      rw [List.all_cons, h, Bool.and_true]
      exact digitChar_isDigit (Nat.mod_lt _ (by decide))

theorem natToDigits_all_digits (n : Nat) :
    (natToDigits n).all Char.isDigit = true := by
  unfold natToDigits
  by_cases h : n = 0
  · simp [h]
  · rw [if_neg h]
    exact natToDigitsAux_all_digits _ _ _ rfl

theorem natToDigitsAux_head :
    ∀ (fuel n : Nat) (acc : List Char), 0 < n → n ≤ fuel →
      acc.all Char.isDigit = true →
    ∃ c rest, natToDigitsAux fuel n acc = c :: rest ∧ '1' ≤ c ∧ c ≤ '9' ∧
      rest.all Char.isDigit = true := by
  intro fuel
  induction fuel with
  | zero => intro n acc hn hf; omega
  | succ fuel ih =>
    intro n acc hn hf hacc
    cases n with
    | zero => omega
    | succ m =>
      show ∃ c rest,
        natToDigitsAux fuel ((m + 1) / 10)
          (Char.ofNat ('0'.toNat + (m + 1) % 10) :: acc) = c :: rest ∧ _
      by_cases h10 : (m + 1) / 10 = 0
      · rw [h10, natToDigitsAux_zero]
        have hlt : m + 1 < 10 := by omega
        have hmod : (m + 1) % 10 = m + 1 := Nat.mod_eq_of_lt hlt
        refine ⟨_, acc, rfl, ?_, ?_, hacc⟩
        · exact (by rw [hmod]; exact (digitChar_pos (by omega) (by omega)).1)
        · exact (by rw [hmod]; exact (digitChar_pos (by omega) (by omega)).2)
      · have hrec : (m + 1) / 10 ≤ fuel := by
          have := Nat.div_lt_self (Nat.succ_pos m) (by decide : 1 < 10)
          omega
        exact ih _ _ (Nat.pos_of_ne_zero h10) hrec
          (by rw [List.all_cons, hacc, Bool.and_true]
              exact digitChar_isDigit (Nat.mod_lt _ (by decide)))

theorem coreDigitsOK_natToDigits (n : Nat) : coreDigitsOK (natToDigits n) = true := by
  by_cases h : n = 0
  · subst h; decide
  · unfold natToDigits
    rw [if_neg h]
    obtain ⟨c, rest, heq, h1, h9, hall⟩ :=
      natToDigitsAux_head n n [] (Nat.pos_of_ne_zero h) (le_refl n) rfl
    rw [heq]
    have hc0 : ¬ c = '0' := by
      intro hh
      subst hh
      exact absurd h1 (by decide)
    simp only [coreDigitsOK, if_neg hc0]
    simp [h1, h9, hall]

/-! ### Scanning lemmas: `takeWhile`/`dropWhile` on a known split, and
character classes of the identifier grammars. -/

theorem takeWhile_dropWhile_append {p : Char → Bool} :
    ∀ (l r : List Char), l.all p = true →
      (∀ c rest, r = c :: rest → p c = false) →
      (l ++ r).takeWhile p = l ∧ (l ++ r).dropWhile p = r
  | [], r, _, hr => by
    cases r with
    | nil => exact ⟨rfl, rfl⟩
    | cons c rest =>
      have hc := hr c rest rfl
      simp [List.takeWhile_cons, List.dropWhile_cons, hc]
  | a :: l, r, hl, hr => by
    simp only [List.all_cons, Bool.and_eq_true] at hl
    have ih := takeWhile_dropWhile_append l r hl.2 hr
    simp [List.takeWhile_cons, List.dropWhile_cons, hl.1, ih.1, ih.2]

theorem takeWhile_all {p : Char → Bool} (l : List Char) (h : l.all p = true) :
    l.takeWhile p = l ∧ l.dropWhile p = [] := by
  have := takeWhile_dropWhile_append l [] h (fun c rest hh => by simp at hh)
  simpa using this

theorem isDigit_of_one_nine {c : Char} (h1 : '1' ≤ c) (h9 : c ≤ '9') :
    c.isDigit = true := by
  have h0 : '0' ≤ c := Char.le_trans (by decide) h1
  unfold Char.isDigit
  simp only [Bool.and_eq_true, decide_eq_true_eq]
  exact ⟨h0, h9⟩

theorem isIdentChar_of_isDigit {c : Char} (h : c.isDigit = true) :
    isIdentChar c = true := by
  simp [isIdentChar, h]

theorem isIdentChar_ne {c : Char} (h : isIdentChar c = true) :
    c ≠ '+' ∧ c ≠ '.' ∧ c ≠ '\n' := by
  refine ⟨?_, ?_, ?_⟩ <;> intro hh <;> subst hh <;> exact absurd h (by decide)

theorem coreDigitsOK_all_digits {s : List Char} (h : coreDigitsOK s = true) :
    s.all Char.isDigit = true := by
  match s with
  | [] => simp [coreDigitsOK] at h
  | c :: rest =>
    simp only [coreDigitsOK] at h
    by_cases hc : c = '0'
    · rw [if_pos hc] at h
      subst hc
      cases rest with
      | nil => decide
      | cons x xs => simp [List.isEmpty] at h
    · rw [if_neg hc] at h
      simp only [Bool.and_eq_true, decide_eq_true_eq] at h
      obtain ⟨⟨h1, h9⟩, hrest⟩ := h
      rw [List.all_cons, isDigit_of_one_nine h1 h9, hrest]
      rfl

theorem isAlnumIdent_chars : ∀ {s : List Char}, isAlnumIdent s = true →
    s.all isIdentChar = true
  | [], h => by simp [isAlnumIdent] at h
  | c :: rest, h => by
    simp only [isAlnumIdent] at h
    by_cases hc : (c.isAlpha || c = '-') = true
    · rw [if_pos hc] at h
      have hcid : isIdentChar c = true := by
        have hc' : c.isAlpha = true ∨ c = '-' := by simpa using hc
        rcases hc' with h' | h' <;> simp [isIdentChar, h']
      rw [List.all_cons, h, hcid]
      rfl
    · rw [if_neg hc] at h
      by_cases hd : c.isDigit = true
      · rw [if_pos hd] at h
        rw [List.all_cons, isAlnumIdent_chars h, isIdentChar_of_isDigit hd]
        rfl
      · rw [if_neg hd] at h
        exact absurd h (by simp)

theorem preIdentOK_chars {s : List Char} (h : preIdentOK s = true) :
    s.all isIdentChar = true := by
  have hor : coreDigitsOK s = true ∨ isAlnumIdent s = true := by
    simpa [preIdentOK] using h
  rcases hor with h' | h'
  · have hd := coreDigitsOK_all_digits h'
    rw [List.all_eq_true] at hd ⊢
    intro c hc
    exact isIdentChar_of_isDigit (hd c hc)
  · exact isAlnumIdent_chars h'

theorem splitDot_ne_nil : ∀ l : List Char, splitDot l ≠ []
  | [] => by simp [splitDot]
  | c :: rest => by
    simp only [splitDot]
    by_cases hc : c = '.'
    · rw [if_pos hc]; simp
    · rw [if_neg hc]
      cases hsd : splitDot rest with
      | nil => simp [consHead]
      | cons s ss => simp [consHead]

theorem mem_splitDot : ∀ (l : List Char) (c : Char), c ∈ l →
    c = '.' ∨ ∃ s, s ∈ splitDot l ∧ c ∈ s
  | [], c, hc => by simp at hc
  | x :: rest, c, hc => by
    simp only [splitDot]
    by_cases hx : x = '.'
    · rw [if_pos hx]
      rcases List.mem_cons.mp hc with h | h
      · subst h; subst hx; exact Or.inl rfl
      · rcases mem_splitDot rest c h with h' | ⟨s, hs, hcs⟩
        · exact Or.inl h'
        · exact Or.inr ⟨s, List.mem_cons_of_mem _ hs, hcs⟩
    · rw [if_neg hx]
      obtain ⟨t, ts, hsd⟩ := List.exists_cons_of_ne_nil (splitDot_ne_nil rest)
      rw [hsd]
      rcases List.mem_cons.mp hc with h | h
      · subst h
        exact Or.inr ⟨c :: t, List.mem_cons_self _ _, List.mem_cons_self _ _⟩
      · rcases mem_splitDot rest c h with h' | ⟨s, hs, hcs⟩
        · exact Or.inl h'
        · rw [hsd] at hs
          rcases List.mem_cons.mp hs with h'' | h''
          · subst h''
            exact Or.inr ⟨x :: s, List.mem_cons_self _ _, List.mem_cons_of_mem _ hcs⟩
          · exact Or.inr ⟨s, List.mem_cons_of_mem _ h'', hcs⟩

theorem preReleaseOK_chars {s : List Char} (h : preReleaseOK s = true) :
    ∀ c ∈ s, isIdentChar c = true ∨ c = '.' := by
  intro c hc
  rcases mem_splitDot s c hc with h' | ⟨t, ht, hct⟩
  · exact Or.inr h'
  · left
    unfold preReleaseOK at h
    rw [List.all_eq_true] at h
    have h2 := preIdentOK_chars (h t ht)
    rw [List.all_eq_true] at h2
    exact h2 c hct

theorem buildOK_chars {s : List Char} (h : buildOK s = true) :
    ∀ c ∈ s, isIdentChar c = true ∨ c = '.' := by
  intro c hc
  rcases mem_splitDot s c hc with h' | ⟨t, ht, hct⟩
  · exact Or.inr h'
  · left
    unfold buildOK at h
    rw [List.all_eq_true] at h
    have h2 := h t ht
    unfold buildIdentOK at h2
    simp only [Bool.and_eq_true] at h2
    have h3 := h2.2
    rw [List.all_eq_true] at h3
    exact h3 c hct

theorem preReleaseOK_no_plus {s : List Char} (h : preReleaseOK s = true) :
    s.all (fun ch => ch != '+') = true := by
  rw [List.all_eq_true]
  intro c hc
  rcases preReleaseOK_chars h c hc with h' | h'
  · simpa [bne_iff_ne] using (isIdentChar_ne h').1
  · subst h'; decide

/-! ### Validity accessors and the round-trip argument. -/

theorem Valid.nonneg {v : Version} (h : v.Valid) :
    0 ≤ v.major ∧ 0 ≤ v.minor ∧ 0 ≤ v.patch := by
  unfold Version.Valid validOK at h
  simp only [Bool.and_eq_true, decide_eq_true_eq] at h
  exact ⟨h.1.1.1.1, h.1.1.1.2, h.1.1.2⟩

theorem Valid.pre_ok {v : Version} (h : v.Valid) :
    ∀ p, v.pre_release = some p → preReleaseOK p = true := by
  intro p hp
  unfold Version.Valid validOK at h
  rw [hp] at h
  simp only [Bool.and_eq_true] at h
  exact h.1.2

theorem Valid.build_ok {v : Version} (h : v.Valid) :
    ∀ b, v.build = some b → buildOK b = true := by
  intro b hb
  unfold Version.Valid validOK at h
  rw [hb] at h
  simp only [Bool.and_eq_true] at h
  exact h.2

theorem parseCore_render (n : Nat) (r : List Char)
    (hr : ∀ c rest, r = c :: rest → c.isDigit = false) :
    parseCore (natToDigits n ++ r) = some (natToDigits n, r) := by
  obtain ⟨ht, hd⟩ :=
    takeWhile_dropWhile_append (natToDigits n) r (natToDigits_all_digits n) hr
  show (if coreDigitsOK ((natToDigits n ++ r).takeWhile Char.isDigit) then
      some ((natToDigits n ++ r).takeWhile Char.isDigit,
            (natToDigits n ++ r).dropWhile Char.isDigit)
    else none) = some (natToDigits n, r)
  rw [ht, hd, if_pos (coreDigitsOK_natToDigits n)]

theorem parseTail_render (pre b : Option (List Char))
    (hpre : ∀ p, pre = some p → preReleaseOK p = true)
    (hb : ∀ x, b = some x → buildOK x = true) :
    parseTail (preSeg pre ++ buildSeg b) = some (pre, b) := by
  cases pre with
  | none =>
    cases b with
    | none => rfl
    | some x =>
      show parseTail ('+' :: x) = some (none, some x)
      simp [parseTail, hb x rfl]
  | some p =>
    have hpok := hpre p rfl
    have hnp := preReleaseOK_no_plus hpok
    cases b with
    | none =>
      show parseTail ('-' :: (p ++ [])) = some (some p, none)
      rw [List.append_nil]
      obtain ⟨htw, hdw⟩ := takeWhile_all p hnp
      simp only [parseTail]
      rw [if_neg (by decide : ¬('-' : Char) = '+'), if_true, htw, hdw, if_pos hpok]
    | some x =>
      show parseTail ('-' :: (p ++ '+' :: x)) = some (some p, some x)
      obtain ⟨htw, hdw⟩ := takeWhile_dropWhile_append p ('+' :: x) hnp
        (by intro c rest hh
            injection hh with h1 _
            rw [← h1]
            decide)
      simp only [parseTail]
      rw [if_neg (by decide : ¬('-' : Char) = '+'), if_true, htw, hdw, if_pos hpok]
      show (if buildOK x then some (some p, some x) else none) = some (some p, some x)
      rw [if_pos (hb x rfl)]

theorem toString_valid (v : Version) (h : v.Valid) :
    v.toString =
      natToDigits v.major.toNat ++ '.' ::
        (natToDigits v.minor.toNat ++ '.' ::
          (natToDigits v.patch.toNat ++
            (preSeg v.pre_release ++ buildSeg v.build))) := by
  obtain ⟨hM, hm, hp⟩ := Valid.nonneg h
  unfold Version.toString intToDigits
  rw [if_neg (by omega : ¬ v.major < 0), if_neg (by omega : ¬ v.minor < 0),
      if_neg (by omega : ¬ v.patch < 0)]
  cases v.pre_release <;> cases v.build <;>
    simp [preSeg, buildSeg, List.append_assoc]

theorem parseVersionString_parts (M m p : Nat) (t : List Char)
    (ht : ∀ c rest, t = c :: rest → c.isDigit = false)
    (pre b : Option (List Char))
    (hpt : parseTail t = some (pre, b)) :
    parseVersionString
        (natToDigits M ++ '.' :: (natToDigits m ++ '.' :: (natToDigits p ++ t))) =
      some (natToDigits M, natToDigits m, natToDigits p, pre, b) := by
  have hdot : ∀ (u : List Char) c rest, ('.' :: u) = c :: rest → c.isDigit = false := by
    intro u c rest hh
    injection hh with h1 _
    rw [← h1]
    decide
  unfold parseVersionString
  rw [parseCore_render M ('.' :: (natToDigits m ++ '.' :: (natToDigits p ++ t)))
        (hdot _)]
  simp only [Option.some_bind]
  show (expectDot ('.' :: (natToDigits m ++ '.' :: (natToDigits p ++ t)))).bind _ = _
  rw [show expectDot ('.' :: (natToDigits m ++ '.' :: (natToDigits p ++ t))) =
        some (natToDigits m ++ '.' :: (natToDigits p ++ t)) by
      simp [expectDot]]
  simp only [Option.some_bind]
  rw [parseCore_render m ('.' :: (natToDigits p ++ t)) (hdot _)]
  simp only [Option.some_bind]
  rw [show expectDot ('.' :: (natToDigits p ++ t)) = some (natToDigits p ++ t) by
      simp [expectDot]]
  simp only [Option.some_bind]
  rw [parseCore_render p t ht]
  simp only [Option.some_bind]
  rw [hpt]
  simp only [Option.some_bind]

theorem from_string_toString {v : Version} (h : v.Valid) :
    from_string v.toString = .ok v := by
  obtain ⟨hM, hm, hp⟩ := Valid.nonneg h
  have htail : ∀ c rest,
      (preSeg v.pre_release ++ buildSeg v.build) = c :: rest → c.isDigit = false := by
    cases hpre : v.pre_release with
    | some p =>
      intro c rest hh
      rw [preSeg, List.cons_append] at hh
      injection hh with h1 _
      rw [← h1]
      decide
    | none =>
      cases hb : v.build with
      | none => intro c rest hh; simp [preSeg, buildSeg] at hh
      | some x =>
        intro c rest hh
        rw [preSeg, buildSeg, List.nil_append] at hh
        injection hh with h1 _
        rw [← h1]
        decide
  have hpt := parseTail_render v.pre_release v.build (Valid.pre_ok h) (Valid.build_ok h)
  rw [toString_valid v h]
  unfold from_string
  rw [parseVersionString_parts v.major.toNat v.minor.toNat v.patch.toNat _ htail
        v.pre_release v.build hpt]
  show Version.mk? (natOfDigits (natToDigits v.major.toNat))
      (natOfDigits (natToDigits v.minor.toNat)) (natOfDigits (natToDigits v.patch.toNat))
      v.pre_release v.build = .ok v
  rw [natOfDigits_natToDigits, natOfDigits_natToDigits, natOfDigits_natToDigits,
      Int.toNat_of_nonneg hM, Int.toNat_of_nonneg hm, Int.toNat_of_nonneg hp]
  unfold Version.mk?
  have h' : validOK v.major v.minor v.patch v.pre_release v.build = true := h
  rw [if_pos h']

/-! ### The `zip_longest` loop agrees with the spec-level padded walk. -/

theorem padTo_self (xs : List (List Char)) : padTo xs xs.length = xs := by
  simp [padTo]

theorem padTo_cons (x : List Char) (xs : List (List Char)) (n : Nat) :
    padTo (x :: xs) (n + 1) = x :: padTo xs n := by
  simp [padTo, Nat.succ_sub_succ]

theorem padTo_nil (n : Nat) : padTo [] n = List.replicate n [] := by
  simp [padTo]

theorem maxSucc (a b : Nat) : max (a + 1) (b + 1) = max a b + 1 := by
  omega

theorem cmpIdentsNil_eq_spec : ∀ bs : List (List Char),
    firstNonZero (List.zipWith cmpIdent (List.replicate bs.length []) bs) =
      cmpIdentsNil bs
  | [] => rfl
  | b :: bs => by
    simp only [List.length_cons, List.replicate_succ, List.zipWith_cons_cons,
      firstNonZero, cmpIdentsNil]
    rw [cmpIdentsNil_eq_spec bs]

theorem cmpIdents_eq_spec : ∀ xs ys : List (List Char), cmpIdents xs ys = specCmpSeq xs ys
  | [], ys => by
    show cmpIdentsNil ys = specCmpSeq [] ys
    simp only [specCmpSeq, List.length_nil, Nat.zero_max, padTo_nil, padTo_self]
    exact (cmpIdentsNil_eq_spec ys).symm
  | a :: as, [] => by
    simp only [cmpIdents, specCmpSeq, List.length_cons, List.length_nil, Nat.max_zero,
      padTo_cons, padTo_nil, List.replicate_succ, List.zipWith_cons_cons, firstNonZero]
    rw [cmpIdents_eq_spec as []]
    simp [specCmpSeq, padTo, Nat.succ_sub_succ]
  | a :: as, b :: bs => by
    simp only [cmpIdents, specCmpSeq, List.length_cons, maxSucc, padTo_cons,
      List.zipWith_cons_cons, firstNonZero]
    rw [cmpIdents_eq_spec as bs]
    simp [specCmpSeq, padTo, Nat.succ_sub_succ]

theorem cmpPreRelease_some (p1 p2 : List Char) :
    cmpPreRelease (some p1) (some p2) = cmpIdents (splitDot p1) (splitDot p2) := by
  unfold cmpPreRelease
  by_cases h : some p1 = some p2
  · rw [if_pos h]
    injection h with h'
    subst h'
    exact (cmpIdents_self _).symm
  · rw [if_neg h]

theorem compareVersion_eq_core {v1 v2 : Version}
    (hM : v1.major = v2.major) (hm : v1.minor = v2.minor) (hp : v1.patch = v2.patch) :
    compareVersion v1 v2 = cmpPreRelease v1.pre_release v2.pre_release := by
  unfold compareVersion
  have h1 : coreLt v1 v2 = false := by
    rw [Bool.eq_false_iff]
    intro hh
    rw [coreLt_iff] at hh
    omega
  have h2 : coreLt v2 v1 = false := by
    rw [Bool.eq_false_iff]
    intro hh
    rw [coreLt_iff] at hh
    omega
  simp [h1, h2]

/-! ### Characterization of the validator and constructor. -/

theorem validOK_iff (major minor patch : Int) (pre build : Option (List Char)) :
    validOK major minor patch pre build = true ↔
      (0 ≤ major ∧ 0 ≤ minor ∧ 0 ≤ patch ∧
        (∀ p, pre = some p → preReleaseOK p = true) ∧
        (∀ b, build = some b → buildOK b = true)) := by
  unfold validOK
  cases pre <;> cases build <;>
    simp [Bool.and_eq_true, decide_eq_true_eq, and_assoc]

theorem mk?_ok_iff (major minor patch : Int) (pre build : Option (List Char))
    (v : Version) :
    Version.mk? major minor patch pre build = .ok v ↔
      (validOK major minor patch pre build = true ∧
        v = ⟨major, minor, patch, pre, build⟩) := by
  unfold Version.mk?
  by_cases h : validOK major minor patch pre build = true
  · rw [if_pos h]
    simp [h, eq_comm]
  · rw [if_neg h]
    simp [h]

theorem mk?_error_iff (major minor patch : Int) (pre build : Option (List Char)) :
    Version.mk? major minor patch pre build =
      .error (.illegalVersion (major, minor, patch, pre, build)) ↔
      validOK major minor patch pre build = false := by
  unfold Version.mk?
  by_cases h : validOK major minor patch pre build = true
  · rw [if_pos h]
    simp [h]
  · rw [if_neg h]
    simp [Bool.eq_false_iff, h]

theorem from_string_valid {s : List Char} {v : Version}
    (h : from_string s = .ok v) : v.Valid := by
  unfold from_string at h
  cases hp : parseVersionString s with
  | none => rw [hp] at h; exact absurd h (by simp)
  | some res =>
    rw [hp] at h
    obtain ⟨ma, mi, pa, pre, b⟩ := res
    have h' : Version.mk? (natOfDigits ma) (natOfDigits mi) (natOfDigits pa) pre b =
        .ok v := h
    rw [mk?_ok_iff] at h'
    obtain ⟨hval, hv⟩ := h'
    subst hv
    exact hval

/-! ### The bump operations on valid versions. -/

theorem bump_components_valid {v : Version} (h : v.Valid) {M m p : Int}
    (hM : 0 ≤ M) (hm : 0 ≤ m) (hp : 0 ≤ p) (kp kb : Bool) :
    validOK M m p (if kp then v.pre_release else none)
      (if kb then v.build else none) = true := by
  rw [validOK_iff]
  refine ⟨hM, hm, hp, ?_, ?_⟩
  · intro q hq
    cases kp with
    | false => simp at hq
    | true => exact Valid.pre_ok h q hq
  · intro x hx
    cases kb with
    | false => simp at hx
    | true => exact Valid.build_ok h x hx

theorem bump_major_ok {v : Version} (h : v.Valid) (kp kb : Bool) :
    v.bump_major kp kb = .ok ⟨v.major + 1, 0, 0,
      if kp then v.pre_release else none, if kb then v.build else none⟩ := by
  obtain ⟨hM, _, _⟩ := Valid.nonneg h
  unfold Version.bump_major Version.mk?
  rw [if_pos (bump_components_valid h (by omega) (by omega) (by omega) kp kb)]

theorem bump_minor_ok {v : Version} (h : v.Valid) (kp kb : Bool) :
    v.bump_minor kp kb = .ok ⟨v.major, v.minor + 1, 0,
      if kp then v.pre_release else none, if kb then v.build else none⟩ := by
  obtain ⟨hM, hm, _⟩ := Valid.nonneg h
  unfold Version.bump_minor Version.mk?
  rw [if_pos (bump_components_valid h (by omega) (by omega) (by omega) kp kb)]

theorem bump_patch_ok {v : Version} (h : v.Valid) (kp kb : Bool) :
    v.bump_patch kp kb = .ok ⟨v.major, v.minor, v.patch + 1,
      if kp then v.pre_release else none, if kb then v.build else none⟩ := by
  obtain ⟨hM, hm, hp⟩ := Valid.nonneg h
  unfold Version.bump_patch Version.mk?
  rw [if_pos (bump_components_valid h (by omega) (by omega) (by omega) kp kb)]

theorem bump_build_ok {v : Version} (h : v.Valid) {x : List Char}
    (hx : buildOK x = true) :
    v.bump_build (some x) =
      .ok ⟨v.major, v.minor, v.patch, v.pre_release, some x⟩ := by
  obtain ⟨hM, hm, hp⟩ := Valid.nonneg h
  unfold Version.bump_build Version.mk?
  rw [if_pos]
  rw [validOK_iff]
  refine ⟨hM, hm, hp, Valid.pre_ok h, ?_⟩
  intro y hy
  injection hy with hy'
  subst hy'
  exact hx

/-! ### Inversion of the parser, and the alphabet of parsable strings. -/

/-- Characters that can occur anywhere in a string accepted by
`_VERSION_PATTERN`. -/
def versionChar (c : Char) : Bool :=
  c.isDigit || isIdentChar c || c = '.' || c = '-' || c = '+'

theorem all_takeWhile {p : Char → Bool} : ∀ l : List Char,
    (l.takeWhile p).all p = true
  | [] => rfl
  | c :: rest => by
    rw [List.takeWhile_cons]
    by_cases hc : p c = true
    · rw [if_pos hc, List.all_cons, hc, all_takeWhile rest]
      rfl
    · rw [if_neg hc]
      rfl

theorem dropWhile_head_false {p : Char → Bool} : ∀ (l : List Char) {x : Char}
    {xs : List Char}, l.dropWhile p = x :: xs → p x = false := by
  intro l
  induction l with
  | nil => intro x xs h; simp at h
  | cons c rest ih =>
    intro x xs h
    rw [List.dropWhile_cons] at h
    by_cases hc : p c = true
    · rw [if_pos hc] at h
      exact ih h
    · rw [if_neg hc] at h
      injection h with h1 _
      rw [← h1]
      cases hpc : p c with
      | false => rfl
      | true => exact absurd hpc hc

theorem parseCore_eq_some {s d r : List Char} (h : parseCore s = some (d, r)) :
    s = d ++ r ∧ d.all Char.isDigit = true ∧ coreDigitsOK d = true := by
  by_cases hok : coreDigitsOK (s.takeWhile Char.isDigit) = true
  · have h' : (some (s.takeWhile Char.isDigit, s.dropWhile Char.isDigit) :
        Option (List Char × List Char)) = some (d, r) := by
      rw [← h]
      show _ = (if coreDigitsOK (s.takeWhile Char.isDigit) then
          some (s.takeWhile Char.isDigit, s.dropWhile Char.isDigit) else none)
      rw [if_pos hok]
    injection h' with h''
    injection h'' with h1 h2
    refine ⟨?_, ?_, ?_⟩
    · rw [← h1, ← h2]
      exact (List.takeWhile_append_dropWhile _ _).symm
    · rw [← h1]
      exact all_takeWhile s
    · rw [← h1]
      exact hok
  · exfalso
    have h' : parseCore s = none := by
      show (if coreDigitsOK (s.takeWhile Char.isDigit) then
          some (s.takeWhile Char.isDigit, s.dropWhile Char.isDigit) else none) = none
      rw [if_neg hok]
    rw [h'] at h
    exact absurd h (by simp)

theorem expectDot_eq_some {s r : List Char} (h : expectDot s = some r) :
    s = '.' :: r := by
  match s with
  | [] => simp [expectDot] at h
  | c :: rest =>
    simp only [expectDot] at h
    by_cases hc : c = '.'
    · rw [if_pos hc] at h
      injection h with h'
      rw [hc, h']
    · rw [if_neg hc] at h
      exact absurd h (by simp)

theorem all_versionChar_of_ident {t : List Char}
    (h : ∀ c ∈ t, isIdentChar c = true ∨ c = '.') : t.all versionChar = true := by
  rw [List.all_eq_true]
  intro c hc
  rcases h c hc with h' | h'
  · simp [versionChar, h']
  · simp [versionChar, h']

theorem parseTail_chars {t : List Char} {res : Option (List Char) × Option (List Char)}
    (h : parseTail t = some res) : t.all versionChar = true := by
  match t with
  | [] => rfl
  | c :: rest =>
    simp only [parseTail] at h
    by_cases hc : c = '+'
    · rw [if_pos hc] at h
      by_cases hb : buildOK rest = true
      · rw [if_pos hb] at h
        rw [List.all_cons, hc]
        have hr := all_versionChar_of_ident (buildOK_chars hb)
        rw [hr]
        rfl
      · rw [if_neg hb] at h
        exact absurd h (by simp)
    · rw [if_neg hc] at h
      by_cases hd : c = '-'
      · rw [if_pos hd] at h
        by_cases hpok : preReleaseOK (rest.takeWhile (fun ch => ch != '+')) = true
        · rw [if_pos hpok] at h
          rw [List.all_cons, hd]
          have hpre := all_versionChar_of_ident (preReleaseOK_chars hpok)
          have hsplit := (List.takeWhile_append_dropWhile
            (fun ch => ch != '+') rest).symm
          have hrest : rest.all versionChar = true := by
            rw [hsplit, List.all_append, hpre]
            cases hdw : rest.dropWhile (fun ch => ch != '+') with
            | nil => rfl
            | cons x b =>
              have hx := dropWhile_head_false rest hdw
              have hx' : x = '+' := by
                simpa [bne_iff_ne] using hx
              rw [hdw] at h
              by_cases hbb : buildOK b = true
              · rw [List.all_cons, hx', (by decide : versionChar '+' = true),
                    all_versionChar_of_ident (buildOK_chars hbb)]
                rfl
              · exfalso
                have h' : (if buildOK b = true then
                    some (some (List.takeWhile (fun ch => ch != '+') rest), some b)
                    else none) = some res := h
                rw [if_neg hbb] at h'
                exact absurd h' (by simp)
          rw [hrest]
          rfl
        · rw [if_neg hpok] at h
          exact absurd h (by simp)
      · rw [if_neg hd] at h
        exact absurd h (by simp)

theorem parse_chars {s : List Char}
    {res : List Char × List Char × List Char × Option (List Char) × Option (List Char)}
    (h : parseVersionString s = some res) : s.all versionChar = true := by
  unfold parseVersionString at h
  cases h1 : parseCore s with
  | none => rw [h1] at h; simp at h
  | some dr1 =>
    obtain ⟨d1, r1⟩ := dr1
    rw [h1] at h
    simp only [Option.some_bind] at h
    cases h2 : expectDot r1 with
    | none => rw [h2] at h; simp at h
    | some r2 =>
      rw [h2] at h
      simp only [Option.some_bind] at h
      cases h3 : parseCore r2 with
      | none => rw [h3] at h; simp at h
      | some dr2 =>
        obtain ⟨d2, r3⟩ := dr2
        rw [h3] at h
        simp only [Option.some_bind] at h
        cases h4 : expectDot r3 with
        | none => rw [h4] at h; simp at h
        | some r4 =>
          rw [h4] at h
          simp only [Option.some_bind] at h
          cases h5 : parseCore r4 with
          | none => rw [h5] at h; simp at h
          | some dr3 =>
            obtain ⟨d3, r5⟩ := dr3
            rw [h5] at h
            simp only [Option.some_bind] at h
            cases h6 : parseTail r5 with
            | none => rw [h6] at h; simp at h
            | some pb =>
              obtain ⟨hs1, hall1, _⟩ := parseCore_eq_some h1
              obtain ⟨hs2, hall2, _⟩ := parseCore_eq_some h3
              obtain ⟨hs3, hall3, _⟩ := parseCore_eq_some h5
              have hd1 := expectDot_eq_some h2
              have hd2 := expectDot_eq_some h4
              have ht := parseTail_chars h6
              have hdig : ∀ {u : List Char}, u.all Char.isDigit = true →
                  u.all versionChar = true := by
                intro u hu
                rw [List.all_eq_true] at hu ⊢
                intro c hc
                simp [versionChar, hu c hc]
              rw [hs1, hd1, hs2, hd2, hs3]
              simp only [List.all_append, List.all_cons]
              rw [hdig hall1, hdig hall2, hdig hall3, ht]
              rfl

theorem from_string_leading_newline (s : List Char) :
    from_string ('\n' :: s) = .error (.illegalVersionString ('\n' :: s)) := by
  unfold from_string
  cases hp : parseVersionString ('\n' :: s) with
  | none => rfl
  | some res =>
    exfalso
    have hall := parse_chars hp
    rw [List.all_cons] at hall
    have : versionChar '\n' = true := by
      cases hv : versionChar '\n' with
      | true => rfl
      | false => rw [hv] at hall; exact absurd hall (by simp)
    exact absurd this (by decide)

theorem from_string_trailing_newline (s : List Char) :
    from_string (s ++ ['\n']) = .error (.illegalVersionString (s ++ ['\n'])) := by
  unfold from_string
  cases hp : parseVersionString (s ++ ['\n']) with
  | none => rfl
  | some res =>
    exfalso
    have hall := parse_chars hp
    rw [List.all_eq_true] at hall
    have := hall '\n' (by simp)
    exact absurd this (by decide)

/-! ### Leading zeros. -/

theorem char_val_eq_48 : ('0' : Char).val = (48 : UInt32) := by decide

theorem one_le_of_zero_lt {c : Char} (h : '0' < c) : '1' ≤ c := by
  rw [Char.le_def, UInt32.le_def, BitVec.le_def]
  rw [Char.lt_def, UInt32.lt_def, BitVec.lt_def] at h
  have h1 : ('1' : Char).val.toBitVec.toNat = 49 := by decide
  have h0 : ('0' : Char).val.toBitVec.toNat = 48 := by decide
  rw [h0] at h
  rw [h1]
  omega

theorem digit_ne_zero_one_nine {c : Char} (hd : c.isDigit = true) (h0 : c ≠ '0') :
    ('1' ≤ c ∧ c ≤ '9') := by
  unfold Char.isDigit at hd
  simp only [Bool.and_eq_true, decide_eq_true_eq] at hd
  obtain ⟨h48, h57⟩ := hd
  have h0le : '0' ≤ c := by
    rw [Char.le_def, char_val_eq_48]
    exact h48
  have h9ge : c ≤ '9' := by
    rw [Char.le_def, show ('9' : Char).val = (57 : UInt32) by decide]
    exact h57
  refine ⟨?_, h9ge⟩
  rcases lt_or_gt_of_ne h0 with hlt | hgt
  · exact absurd hlt (not_lt.mpr h0le)
  · exact one_le_of_zero_lt hgt

theorem coreDigitsOK_false_of_leading_zero {s : List Char} (h1 : 1 < s.length)
    (h0 : s.head? = some '0') : coreDigitsOK s = false := by
  match s with
  | [] => simp at h0
  | c :: rest =>
    have hc : c = '0' := by simpa using h0
    subst hc
    simp only [coreDigitsOK, if_pos rfl]
    cases rest with
    | nil => simp at h1
    | cons x xs => rfl

theorem coreDigitsOK_true_of_digits {s : List Char} (hne : s ≠ [])
    (hd : s.all Char.isDigit = true)
    (hnlz : ¬(1 < s.length ∧ s.head? = some '0')) : coreDigitsOK s = true := by
  match s with
  | [] => exact absurd rfl hne
  | c :: rest =>
    rw [List.all_cons, Bool.and_eq_true] at hd
    by_cases hc : c = '0'
    · subst hc
      cases rest with
      | nil => rfl
      | cons x xs =>
        exact absurd ⟨by simp, by simp⟩ hnlz
    · obtain ⟨hc1, hc9⟩ := digit_ne_zero_one_nine hd.1 hc
      simp only [coreDigitsOK, if_neg hc]
      simp [hc1, hc9, hd.2]

theorem head_dot_not_digit (u : List Char) :
    ∀ x rest, ('.' :: u) = x :: rest → x.isDigit = false := by
  intro x rest hh
  injection hh with h1 _
  rw [← h1]
  decide

theorem parseCore_exact {d r : List Char} (hdall : d.all Char.isDigit = true)
    (hok : coreDigitsOK d = true)
    (hr : ∀ x rest, r = x :: rest → x.isDigit = false) :
    parseCore (d ++ r) = some (d, r) := by
  obtain ⟨ht, hd2⟩ := takeWhile_dropWhile_append d r hdall hr
  show (if coreDigitsOK ((d ++ r).takeWhile Char.isDigit) then
      some ((d ++ r).takeWhile Char.isDigit, (d ++ r).dropWhile Char.isDigit)
    else none) = some (d, r)
  rw [ht, hd2, if_pos hok]

theorem parseCore_none {d : List Char} (hdall : d.all Char.isDigit = true)
    (hok : coreDigitsOK d = false) (r : List Char)
    (hr : ∀ x rest, r = x :: rest → x.isDigit = false) :
    parseCore (d ++ r) = none := by
  obtain ⟨ht, _⟩ := takeWhile_dropWhile_append d r hdall hr
  show (if coreDigitsOK ((d ++ r).takeWhile Char.isDigit) then
      some ((d ++ r).takeWhile Char.isDigit, (d ++ r).dropWhile Char.isDigit)
    else none) = none
  rw [ht, if_neg (by simp [hok])]

theorem parseVersionString_leading_zero {a b c : List Char}
    (ha : a ≠ []) (hda : a.all Char.isDigit = true)
    (hb : b ≠ []) (hdb : b.all Char.isDigit = true)
    (hc : c ≠ []) (hdc : c.all Char.isDigit = true)
    (hlz : (1 < a.length ∧ a.head? = some '0') ∨
           (1 < b.length ∧ b.head? = some '0') ∨
           (1 < c.length ∧ c.head? = some '0')) :
    parseVersionString (a ++ '.' :: (b ++ '.' :: c)) = none := by
  unfold parseVersionString
  by_cases hlza : 1 < a.length ∧ a.head? = some '0'
  · rw [parseCore_none hda (coreDigitsOK_false_of_leading_zero hlza.1 hlza.2) _
        (head_dot_not_digit _)]
    rfl
  · rw [parseCore_exact hda (coreDigitsOK_true_of_digits ha hda hlza)
        (head_dot_not_digit _)]
    simp only [Option.some_bind]
    rw [show expectDot ('.' :: (b ++ '.' :: c)) = some (b ++ '.' :: c) by
      simp [expectDot]]
    simp only [Option.some_bind]
    by_cases hlzb : 1 < b.length ∧ b.head? = some '0'
    · rw [parseCore_none hdb (coreDigitsOK_false_of_leading_zero hlzb.1 hlzb.2) _
          (head_dot_not_digit _)]
      rfl
    · rw [parseCore_exact hdb (coreDigitsOK_true_of_digits hb hdb hlzb)
          (head_dot_not_digit _)]
      simp only [Option.some_bind]
      rw [show expectDot ('.' :: c) = some c by simp [expectDot]]
      simp only [Option.some_bind]
      have hlzc : 1 < c.length ∧ c.head? = some '0' := by tauto
      have hnone : parseCore c = none := by
        obtain ⟨htw, _⟩ := takeWhile_all c hdc
        show (if coreDigitsOK (c.takeWhile Char.isDigit) then
            some (c.takeWhile Char.isDigit, c.dropWhile Char.isDigit)
          else none) = none
        rw [htw,
          if_neg (by simp [coreDigitsOK_false_of_leading_zero hlzc.1 hlzc.2])]
      rw [hnone]
      rfl

theorem from_string_leading_zero {a b c : List Char}
    (ha : a ≠ []) (hda : a.all Char.isDigit = true)
    (hb : b ≠ []) (hdb : b.all Char.isDigit = true)
    (hc : c ≠ []) (hdc : c.all Char.isDigit = true)
    (hlz : (1 < a.length ∧ a.head? = some '0') ∨
           (1 < b.length ∧ b.head? = some '0') ∨
           (1 < c.length ∧ c.head? = some '0')) :
    from_string (a ++ '.' :: (b ++ '.' :: c)) =
      .error (.illegalVersionString (a ++ '.' :: (b ++ '.' :: c))) := by
  unfold from_string
  rw [parseVersionString_leading_zero ha hda hb hdb hc hdc hlz]

theorem uint32_le_toNat {a b : UInt32} : a ≤ b ↔ a.toNat ≤ b.toNat := Iff.rfl

theorem isDigit_toNat {c : Char} (h : c.isDigit = true) :
    48 ≤ c.val.toNat ∧ c.val.toNat ≤ 57 := by
  unfold Char.isDigit at h
  simp only [Bool.and_eq_true, decide_eq_true_eq] at h
  obtain ⟨h48, h57⟩ := h
  have h48' : (48 : UInt32) ≤ c.val := h48
  have h57' : c.val ≤ (57 : UInt32) := h57
  rw [uint32_le_toNat, (by decide : ((48 : UInt32)).toNat = 48)] at h48'
  rw [uint32_le_toNat, (by decide : ((57 : UInt32)).toNat = 57)] at h57'
  exact ⟨h48', h57'⟩

theorem isAlpha_false_of_isDigit {c : Char} (h : c.isDigit = true) :
    c.isAlpha = false := by
  rw [Bool.eq_false_iff]
  intro hh
  obtain ⟨h48, h57⟩ := isDigit_toNat h
  unfold Char.isAlpha Char.isUpper Char.isLower at hh
  simp only [Bool.or_eq_true, Bool.and_eq_true, decide_eq_true_eq] at hh
  rcases hh with ⟨h65, _⟩ | ⟨h97, _⟩
  · have h65' : (65 : UInt32) ≤ c.val := h65
    rw [uint32_le_toNat, (by decide : ((65 : UInt32)).toNat = 65)] at h65'
    omega
  · have h97' : (97 : UInt32) ≤ c.val := h97
    rw [uint32_le_toNat, (by decide : ((97 : UInt32)).toNat = 97)] at h97'
    omega

theorem all_digits_not_alnum : ∀ {s : List Char}, s.all Char.isDigit = true →
    isAlnumIdent s = false
  | [], _ => rfl
  | c :: rest, h => by
    rw [List.all_cons, Bool.and_eq_true] at h
    have ha : c.isAlpha = false := isAlpha_false_of_isDigit h.1
    have hm : ¬ c = '-' := by
      intro hh
      subst hh
      exact absurd h.1 (by decide)
    simp only [isAlnumIdent]
    rw [if_neg (by simp [ha, hm]), if_pos h.1]
    exact all_digits_not_alnum h.2

theorem preReleaseOK_false_of_leading_zero_seg {pre seg : List Char}
    (hmem : seg ∈ splitDot pre) (hdig : seg.all Char.isDigit = true)
    (hhead : seg.head? = some '0') (hlen : 1 < seg.length) :
    preReleaseOK pre = false := by
  rw [Bool.eq_false_iff]
  intro hok
  unfold preReleaseOK at hok
  rw [List.all_eq_true] at hok
  have h1 := hok seg hmem
  have h2 : coreDigitsOK seg = true ∨ isAlnumIdent seg = true := by
    simpa [preIdentOK] using h1
  rcases h2 with h2 | h2
  · rw [coreDigitsOK_false_of_leading_zero hlen hhead] at h2
    exact absurd h2 (by simp)
  · rw [all_digits_not_alnum hdig] at h2
    exact absurd h2 (by simp)

theorem mk?_leading_zero_pre (M m p : Int) (bld : Option (List Char))
    (pre seg : List Char) (hmem : seg ∈ splitDot pre)
    (hdig : seg.all Char.isDigit = true) (hhead : seg.head? = some '0')
    (hlen : 1 < seg.length) :
    Version.mk? M m p (some pre) bld =
      .error (.illegalVersion (M, m, p, some pre, bld)) := by
  rw [mk?_error_iff, Bool.eq_false_iff]
  intro hv
  rw [validOK_iff] at hv
  have h1 := hv.2.2.2.1 pre rfl
  rw [preReleaseOK_false_of_leading_zero_seg hmem hdig hhead hlen] at h1
  exact absurd h1 (by simp)

theorem compareVersion_antisymm (v1 v2 : Version) :
    compareVersion v1 v2 = -compareVersion v2 v1 := by
  unfold compareVersion
  by_cases h12 : coreLt v1 v2 = true
  · have h21 : ¬ coreLt v2 v1 = true := by simp [coreLt_asymm h12]
    rw [if_pos h12, if_neg h21, if_pos h12]
  · by_cases h21 : coreLt v2 v1 = true
    · have h12' : ¬ coreLt v1 v2 = true := by simp [coreLt_asymm h21]
      rw [if_neg h12', if_pos h21, if_pos h21]
      decide
    · rw [if_neg h12, if_neg h21, if_neg h21, if_neg h12]
      exact cmpPreRelease_antisymm _ _

/-! ### Sample versions used to instantiate the claim theorems. -/

/-- A release version `1.2.3`. -/
def sampleRelease : Version := ⟨1, 2, 3, none, none⟩

/-- A pre-release version `1.2.3-alpha`. -/
def samplePre : Version := ⟨1, 2, 3, some "alpha".data, none⟩

/-- The version `1.0.0-alpha`. -/
def sampleAlpha : Version := ⟨1, 0, 0, some "alpha".data, none⟩

/-- The version `1.0.0-alpha.1`. -/
def sampleAlpha1 : Version := ⟨1, 0, 0, some "alpha.1".data, none⟩

/-- The version `1.2.3-alpha+build`. -/
def sampleFull : Version := ⟨1, 2, 3, some "alpha".data, some "build".data⟩

/-! ### The claims. -/

/-- C1 counterexample: the claimed trichotomy and transitivity both fail on
the code.  Valid versions `1.0.0+a` and `1.0.0+b` differ only in build, so
none of `v1<v2`, `v1==v2`, `v1>v2` holds (build participates in equality but
not in ordering); and `<` is not transitive: `1.0.0-1a < 1.0.0-2 < 1.0.0-10`
yet `1.0.0-10 < 1.0.0-1a`, because identifier pairs switch between numeric
and lexicographic comparison. -/
theorem C1_counterexample :
    (Version.Valid ⟨1, 0, 0, none, some "a".data⟩ ∧
     Version.Valid ⟨1, 0, 0, none, some "b".data⟩ ∧
     vlt ⟨1, 0, 0, none, some "a".data⟩ ⟨1, 0, 0, none, some "b".data⟩ = false ∧
     veq ⟨1, 0, 0, none, some "a".data⟩ ⟨1, 0, 0, none, some "b".data⟩ = false ∧
     vgt ⟨1, 0, 0, none, some "a".data⟩ ⟨1, 0, 0, none, some "b".data⟩ = false) ∧
    (Version.Valid ⟨1, 0, 0, some "1a".data, none⟩ ∧
     Version.Valid ⟨1, 0, 0, some "2".data, none⟩ ∧
     Version.Valid ⟨1, 0, 0, some "10".data, none⟩ ∧
     vlt ⟨1, 0, 0, some "1a".data, none⟩ ⟨1, 0, 0, some "2".data, none⟩ = true ∧
     vlt ⟨1, 0, 0, some "2".data, none⟩ ⟨1, 0, 0, some "10".data, none⟩ = true ∧
     vlt ⟨1, 0, 0, some "1a".data, none⟩ ⟨1, 0, 0, some "10".data, none⟩ = false ∧
     vlt ⟨1, 0, 0, some "10".data, none⟩ ⟨1, 0, 0, some "1a".data, none⟩ = true) := by
  decide

/-- C1 (amended): for all valid versions, exactly one of `v1 < v2`,
`compare v1 v2 = 0`, `v1 > v2` holds, where `>` agrees with the flipped `<`;
comparison is antisymmetric (`compare v1 v2 = -compare v2 v1`) and `==`
implies `compare = 0`.  (Trichotomy with respect to `==` and transitivity of
`<` fail on the code; see the counterexample.) -/
theorem C1_ordering (v1 v2 : Version) (h1 : v1.Valid) (h2 : v2.Valid) :
    ((vlt v1 v2 = true ∨ compareVersion v1 v2 = 0 ∨ vgt v1 v2 = true) ∧
     ¬(vlt v1 v2 = true ∧ compareVersion v1 v2 = 0) ∧
     ¬(vlt v1 v2 = true ∧ vgt v1 v2 = true) ∧
     ¬(compareVersion v1 v2 = 0 ∧ vgt v1 v2 = true)) ∧
    vgt v1 v2 = vlt v2 v1 ∧
    compareVersion v1 v2 = -compareVersion v2 v1 ∧
    (veq v1 v2 = true → compareVersion v1 v2 = 0) := by
  have ha := compareVersion_antisymm v1 v2
  refine ⟨⟨?_, ?_, ?_, ?_⟩, ?_, ha, ?_⟩
  · unfold vlt vgt
    simp only [decide_eq_true_eq]
    omega
  · unfold vlt
    simp only [decide_eq_true_eq]
    omega
  · unfold vlt vgt
    simp only [decide_eq_true_eq]
    omega
  · unfold vgt
    simp only [decide_eq_true_eq]
    omega
  · unfold vgt vlt
    rw [decide_eq_decide]
    omega
  · unfold veq
    rw [decide_eq_true_eq]
    intro hh
    subst hh
    exact compareVersion_self v1

/-- C1 witness: the amended ordering facts at the concrete valid pair
`1.2.3` and `1.2.3-alpha`. -/
theorem C1_ordering_witness :
    ((vlt sampleRelease samplePre = true ∨
      compareVersion sampleRelease samplePre = 0 ∨
      vgt sampleRelease samplePre = true) ∧
     ¬(vlt sampleRelease samplePre = true ∧
       compareVersion sampleRelease samplePre = 0) ∧
     ¬(vlt sampleRelease samplePre = true ∧ vgt sampleRelease samplePre = true) ∧
     ¬(compareVersion sampleRelease samplePre = 0 ∧
       vgt sampleRelease samplePre = true)) ∧
    vgt sampleRelease samplePre = vlt samplePre sampleRelease ∧
    compareVersion sampleRelease samplePre = -compareVersion samplePre sampleRelease ∧
    (veq sampleRelease samplePre = true →
      compareVersion sampleRelease samplePre = 0) :=
  C1_ordering sampleRelease samplePre (by decide) (by decide)

/-- C2: parsing the canonical rendering of any valid version yields back an
equal version: `from_string (str v) = ok v`. -/
theorem C2_round_trip (v : Version) (h : v.Valid) :
    from_string v.toString = .ok v :=
  from_string_toString h

/-- C2 witness: the round trip at the concrete version
`10.20.30-alpha.1+b-7`. -/
theorem C2_round_trip_witness :
    Version.Valid ⟨10, 20, 30, some "alpha.1".data, some "b-7".data⟩ ∧
    from_string (Version.toString ⟨10, 20, 30, some "alpha.1".data, some "b-7".data⟩) =
      .ok ⟨10, 20, 30, some "alpha.1".data, some "b-7".data⟩ :=
  ⟨by decide, C2_round_trip _ (by decide)⟩

/-- C3: with equal cores and both pre-releases present, the comparison is
the spec-described walk: split on `.`, pad the shorter identifier sequence
with empty identifiers, compare pairs (numeric when both pure-digit,
lexicographic otherwise), first nonzero pair wins; in particular
`1.0.0-alpha < 1.0.0-alpha.1`. -/
theorem C3_pre_release_walk (v1 v2 : Version) (h1 : v1.Valid) (h2 : v2.Valid)
    (hM : v1.major = v2.major) (hm : v1.minor = v2.minor) (hp : v1.patch = v2.patch)
    (p1 p2 : List Char) (hp1 : v1.pre_release = some p1)
    (hp2 : v2.pre_release = some p2) :
    compareVersion v1 v2 = specCmpSeq (splitDot p1) (splitDot p2) ∧
    vlt sampleAlpha sampleAlpha1 = true ∧
    from_string "1.0.0-alpha".data = .ok sampleAlpha ∧
    from_string "1.0.0-alpha.1".data = .ok sampleAlpha1 := by
  refine ⟨?_, by decide, by decide, by decide⟩
  rw [compareVersion_eq_core hM hm hp, hp1, hp2, cmpPreRelease_some,
    cmpIdents_eq_spec]

/-- C3 witness: the pre-release walk at `1.0.0-alpha` versus
`1.0.0-alpha.1`. -/
theorem C3_pre_release_walk_witness :
    compareVersion sampleAlpha sampleAlpha1 =
      specCmpSeq (splitDot "alpha".data) (splitDot "alpha.1".data) ∧
    vlt sampleAlpha sampleAlpha1 = true ∧
    from_string "1.0.0-alpha".data = .ok sampleAlpha ∧
    from_string "1.0.0-alpha.1".data = .ok sampleAlpha1 :=
  C3_pre_release_walk sampleAlpha sampleAlpha1 (by decide) (by decide)
    rfl rfl rfl "alpha".data "alpha.1".data rfl rfl

/-- C4: with equal cores and unequal pre-release fields, an absent first
pre-release compares `+1` and an absent second pre-release compares `-1`;
in particular `1.0.0 > 1.0.0-alpha`. -/
theorem C4_release_outranks (v1 v2 : Version) (h1 : v1.Valid) (h2 : v2.Valid)
    (hM : v1.major = v2.major) (hm : v1.minor = v2.minor) (hp : v1.patch = v2.patch)
    (hne : v1.pre_release ≠ v2.pre_release) :
    (v1.pre_release = none → compareVersion v1 v2 = 1) ∧
    (v2.pre_release = none → compareVersion v1 v2 = -1) ∧
    vgt ⟨1, 0, 0, none, none⟩ sampleAlpha = true ∧
    from_string "1.0.0".data = .ok ⟨1, 0, 0, none, none⟩ ∧
    from_string "1.0.0-alpha".data = .ok sampleAlpha := by
  refine ⟨?_, ?_, by decide, by decide, by decide⟩
  · intro hn1
    rw [compareVersion_eq_core hM hm hp, hn1]
    have hne' : ¬ (none : Option (List Char)) = v2.pre_release := fun hh =>
      hne (hn1.trans hh)
    unfold cmpPreRelease
    rw [if_neg hne']
    cases v2.pre_release <;> rfl
  · intro hn2
    rw [compareVersion_eq_core hM hm hp, hn2]
    cases hv1 : v1.pre_release with
    | none => exact absurd (hv1.trans hn2.symm) hne
    | some s =>
      have hne' : ¬ (some s : Option (List Char)) = none := by simp
      unfold cmpPreRelease
      rw [if_neg hne']

/-- C4 witness: the release `1.2.3` outranks `1.2.3-alpha`. -/
theorem C4_release_outranks_witness :
    (sampleRelease.pre_release = none →
      compareVersion sampleRelease samplePre = 1) ∧
    (samplePre.pre_release = none →
      compareVersion sampleRelease samplePre = -1) ∧
    vgt ⟨1, 0, 0, none, none⟩ sampleAlpha = true ∧
    from_string "1.0.0".data = .ok ⟨1, 0, 0, none, none⟩ ∧
    from_string "1.0.0-alpha".data = .ok sampleAlpha :=
  C4_release_outranks sampleRelease samplePre (by decide) (by decide)
    rfl rfl rfl (by decide)

/-- C5 (code bug): the claimed iff fails on the code at the input
`Version(1, 0, 0, "1٢")`, whose pre-release is `'1'` followed by U+0662
ARABIC-INDIC DIGIT TWO.  The patterns are `str` patterns compiled without
`re.ASCII`, so `\d` matches Unicode decimal digits and `[1-9]\d*`
fullmatches `"1٢"`: `_validate_version` accepts and the constructor returns
the Version without raising, although the string fails the pre-release
grammar the claim refers to (`digit ::= 0-9`, identifiers from
`[0-9A-Za-z-]`) — the grammar of the semver.org reference named in the
pattern's own docstring, embedded here as `preReleaseOK`.  An invalid
Version is therefore observable; the grammar is the documented intent and
the missing `re.ASCII` a slip. -/
theorem C5_unicode_digit_bug :
    pyValidOK 1 0 0 (some ['1', '٢']) none = true ∧
    pyMk? 1 0 0 (some ['1', '٢']) none =
      .ok ⟨1, 0, 0, some ['1', '٢'], none⟩ ∧
    preReleaseOK ['1', '٢'] = false := by
  decide

/-- C6: the rejection set: each listed malformed string raises the
malformed-string error carrying the raw input, and any string with a
leading or trailing newline fails likewise. -/
theorem C6_rejections :
    from_string "1.2".data = .error (.illegalVersionString "1.2".data) ∧
    from_string "1.2.3.4".data = .error (.illegalVersionString "1.2.3.4".data) ∧
    from_string "1.2.3-".data = .error (.illegalVersionString "1.2.3-".data) ∧
    from_string "1.2.3+".data = .error (.illegalVersionString "1.2.3+".data) ∧
    from_string "1.2.3-alpha+".data =
      .error (.illegalVersionString "1.2.3-alpha+".data) ∧
    from_string "1.2.3-alpha+build+777".data =
      .error (.illegalVersionString "1.2.3-alpha+build+777".data) ∧
    (∀ s : List Char,
      from_string ('\n' :: s) = .error (.illegalVersionString ('\n' :: s))) ∧
    (∀ s : List Char,
      from_string (s ++ ['\n']) = .error (.illegalVersionString (s ++ ['\n']))) :=
  ⟨by decide, by decide, by decide, by decide, by decide, by decide,
    from_string_leading_newline, from_string_trailing_newline⟩

/-- C7: the three core bumps produce the stated cores, resetting pre-release
and build unless the corresponding keep flag retains the original field; the
concrete reset-on-bump examples included. -/
theorem C7_bump (v : Version) (kp kb : Bool) (h : v.Valid) :
    v.bump_major kp kb = .ok ⟨v.major + 1, 0, 0,
      if kp then v.pre_release else none, if kb then v.build else none⟩ ∧
    v.bump_minor kp kb = .ok ⟨v.major, v.minor + 1, 0,
      if kp then v.pre_release else none, if kb then v.build else none⟩ ∧
    v.bump_patch kp kb = .ok ⟨v.major, v.minor, v.patch + 1,
      if kp then v.pre_release else none, if kb then v.build else none⟩ ∧
    Version.bump_major sampleFull false false = .ok ⟨2, 0, 0, none, none⟩ ∧
    Version.bump_major sampleFull true true =
      .ok ⟨2, 0, 0, some "alpha".data, some "build".data⟩ :=
  ⟨bump_major_ok h kp kb, bump_minor_ok h kp kb, bump_patch_ok h kp kb,
    by decide, by decide⟩

/-- C7 witness: the bump equations at `1.2.3-alpha+build` with
`keep_pre_release` set and `keep_build` cleared. -/
theorem C7_bump_witness :
    Version.Valid sampleFull ∧
    (Version.bump_major sampleFull true false = .ok ⟨sampleFull.major + 1, 0, 0,
      if true then sampleFull.pre_release else none,
      if false then sampleFull.build else none⟩ ∧
    Version.bump_minor sampleFull true false =
      .ok ⟨sampleFull.major, sampleFull.minor + 1, 0,
        if true then sampleFull.pre_release else none,
        if false then sampleFull.build else none⟩ ∧
    Version.bump_patch sampleFull true false =
      .ok ⟨sampleFull.major, sampleFull.minor, sampleFull.patch + 1,
        if true then sampleFull.pre_release else none,
        if false then sampleFull.build else none⟩ ∧
    Version.bump_major sampleFull false false = .ok ⟨2, 0, 0, none, none⟩ ∧
    Version.bump_major sampleFull true true =
      .ok ⟨2, 0, 0, some "alpha".data, some "build".data⟩) :=
  ⟨by decide, C7_bump sampleFull true false (by decide)⟩

/-- C8: replacing the build of a valid version with any valid build string
compares equal to the original (build never participates in ordering), while
equality holds exactly when the new build equals the existing one. -/
theorem C8_build_irrelevance (v : Version) (x : List Char) (h : v.Valid)
    (hx : buildOK x = true) :
    v.bump_build (some x) =
      .ok ⟨v.major, v.minor, v.patch, v.pre_release, some x⟩ ∧
    compareVersion v ⟨v.major, v.minor, v.patch, v.pre_release, some x⟩ = 0 ∧
    (veq v ⟨v.major, v.minor, v.patch, v.pre_release, some x⟩ = true ↔
      v.build = some x) := by
  refine ⟨bump_build_ok h hx, ?_, ?_⟩
  · rw [@compareVersion_eq_core v
      ⟨v.major, v.minor, v.patch, v.pre_release, some x⟩ rfl rfl rfl]
    exact cmpPreRelease_self _
  · unfold veq
    rw [decide_eq_true_eq]
    constructor
    · intro hh
      exact congrArg Version.build hh
    · intro hb
      cases v with
      | mk M m p pre bld =>
        simp only at hb
        rw [hb]

/-- C8 witness: build irrelevance at `1.2.3-alpha+build` with new build
`"x"`. -/
theorem C8_build_irrelevance_witness :
    Version.Valid sampleFull ∧ buildOK "x".data = true ∧
    (Version.bump_build sampleFull (some "x".data) =
      .ok ⟨sampleFull.major, sampleFull.minor, sampleFull.patch,
        sampleFull.pre_release, some "x".data⟩ ∧
    compareVersion sampleFull ⟨sampleFull.major, sampleFull.minor,
      sampleFull.patch, sampleFull.pre_release, some "x".data⟩ = 0 ∧
    (veq sampleFull ⟨sampleFull.major, sampleFull.minor, sampleFull.patch,
      sampleFull.pre_release, some "x".data⟩ = true ↔
      sampleFull.build = some "x".data)) :=
  ⟨by decide, by decide, C8_build_irrelevance sampleFull "x".data (by decide) (by decide)⟩

/-- C9: leading zeros are rejected: any core group that is all digits with a
leading zero and length above one makes parsing fail (shown generally for
strings of the shape `a.b.c` and on the concrete rejects), the literal `0`
is accepted, and a pre-release containing a pure-digit identifier with a
leading zero and length above one fails validation. -/
theorem C9_leading_zero :
    from_string "01.2.3".data = .error (.illegalVersionString "01.2.3".data) ∧
    from_string "1.02.3".data = .error (.illegalVersionString "1.02.3".data) ∧
    from_string "1.2.03".data = .error (.illegalVersionString "1.2.03".data) ∧
    from_string "0.0.0".data = .ok ⟨0, 0, 0, none, none⟩ ∧
    (∀ a b c : List Char, a ≠ [] → a.all Char.isDigit = true →
      b ≠ [] → b.all Char.isDigit = true → c ≠ [] → c.all Char.isDigit = true →
      ((1 < a.length ∧ a.head? = some '0') ∨
       (1 < b.length ∧ b.head? = some '0') ∨
       (1 < c.length ∧ c.head? = some '0')) →
      from_string (a ++ '.' :: (b ++ '.' :: c)) =
        .error (.illegalVersionString (a ++ '.' :: (b ++ '.' :: c)))) ∧
    (∀ (M m p : Int) (bld : Option (List Char)) (pre seg : List Char),
      seg ∈ splitDot pre → seg.all Char.isDigit = true →
      seg.head? = some '0' → 1 < seg.length →
      Version.mk? M m p (some pre) bld =
        .error (.illegalVersion (M, m, p, some pre, bld))) ∧
    Version.mk? 1 2 3 (some "01".data) none =
      .error (.illegalVersion (1, 2, 3, some "01".data, none)) ∧
    Version.mk? 1 2 3 (some "0".data) none =
      .ok ⟨1, 2, 3, some "0".data, none⟩ := by
  refine ⟨by decide, by decide, by decide, by decide, ?_, ?_, by decide, by decide⟩
  · intro a b c ha hda hb hdb hc hdc hlz
    exact from_string_leading_zero ha hda hb hdb hc hdc hlz
  · intro M m p bld pre seg h1 h2 h3 h4
    exact mk?_leading_zero_pre M m p bld pre seg h1 h2 h3 h4

/-- C9 witness: the general leading-zero rejection applied at
`01.2.3`, built from its digit groups. -/
theorem C9_leading_zero_witness :
    from_string ("01".data ++ '.' :: ("2".data ++ '.' :: "3".data)) =
      .error (.illegalVersionString
        ("01".data ++ '.' :: ("2".data ++ '.' :: "3".data))) :=
  C9_leading_zero.2.2.2.2.1 "01".data "2".data "3".data (by decide) (by decide)
    (by decide) (by decide) (by decide) (by decide) (Or.inl (by decide))

/-- C10: on a valid version the three core bumps never raise, for every
combination of the keep flags: the constructor's re-validation of the
derived components always succeeds. -/
theorem C10_bump_total (v : Version) (kp kb : Bool) (h : v.Valid) :
    (∃ w, v.bump_major kp kb = .ok w) ∧
    (∃ w, v.bump_minor kp kb = .ok w) ∧
    (∃ w, v.bump_patch kp kb = .ok w) :=
  ⟨⟨_, bump_major_ok h kp kb⟩, ⟨_, bump_minor_ok h kp kb⟩,
    ⟨_, bump_patch_ok h kp kb⟩⟩

/-- C10 witness: the bumps succeed at `1.2.3-alpha+build` with both keep
flags set. -/
theorem C10_bump_total_witness :
    Version.Valid sampleFull ∧
    ((∃ w, Version.bump_major sampleFull true true = .ok w) ∧
     (∃ w, Version.bump_minor sampleFull true true = .ok w) ∧
     (∃ w, Version.bump_patch sampleFull true true = .ok w)) :=
  ⟨by decide, C10_bump_total sampleFull true true (by decide)⟩

end Semver
